import Mathlib

/-!
Verification of the load-generation and measurement engine of
`cpu_ram_stress.cpp`: the primality probe `is_prime`, the two busy-worker
loops `cpu_stress` and `cpu_stress2`, the memory reservation and fill, the
driver sequence of `main`, and the process-memory / CPU-utilization
samplers `print_memory_usage` and `print_cpu_usage`.

Machine integers are modelled as `Nat` with explicit reduction modulo
`2 ^ 64` at every operation where the C++ `unsigned long long` arithmetic
can wrap.
-/

namespace CpuRamStress

/-- Modulus of 64-bit unsigned arithmetic (`unsigned long long` / `ULONGLONG`). -/
def W : Nat := 18446744073709551616

/-- Trial-division loop of `is_prime` (source lines 20-22):
`for (unsigned long long i = 5; i * i <= num; i += 6)` with body
`if (num % i == 0 || num % (i + 2) == 0) return false;`, followed by
`return true` when the guard fails.  All arithmetic on `i` wraps modulo
`2 ^ 64` exactly as in the C++.  The loop is embedded with explicit fuel:
`some b` means the loop returned `b`; `none` means the fuel ran out before
an exit was reached.  The termination theorem for claim C10 shows that fuel
`W` is never exhausted. -/
def trialLoop (num : Nat) : Nat → Nat → Option Bool
  | 0, _ => none
  | fuel + 1, i =>
    if i * i % W ≤ num then
      if num % i = 0 ∨ num % ((i + 2) % W) = 0 then some false
      else trialLoop num fuel ((i + 6) % W)
    else some true

/-- Embedding of `is_prime` (source lines 15-24).  The fuel `W` given to the
loop is never exhausted (claim C10), so the `getD` default is dead code. -/
def is_prime (num : Nat) : Bool :=
  if num ≤ 1 then false
  else if num = 2 ∨ num = 3 then true
  else if num % 2 = 0 ∨ num % 3 = 0 then false
  else (trialLoop num W 5).getD true

/-- State of the floating-point busy worker `cpu_stress` (source lines
26-33): the inner loop counter `i` and the accumulator `result`.  The
accumulator is a C++ `double`; it is modelled as a real number, which is
adequate because the code discards the value and no claim depends on
rounding. -/
structure FPState where
  i : Int
  result : Real

/-- Small-step relation of `cpu_stress`: while `i < 100000000` the inner
loop adds `sqrt i` and increments `i`; when the inner `for` finishes, the
outer `while (true)` starts a fresh pass with `result = 0`, `i = 0`. -/
inductive cpu_stress_step : FPState → FPState → Prop
  | inner (i : Int) (r : Real) (h : i < 100000000) :
      cpu_stress_step ⟨i, r⟩ ⟨i + 1, r + Real.sqrt i⟩
  | restart (i : Int) (r : Real) (h : ¬ i < 100000000) :
      cpu_stress_step ⟨i, r⟩ ⟨0, 0⟩

/-- Small-step relation of the prime-scan busy worker `cpu_stress2` (source
lines 35-41): probe `is_prime num`, discard the result, and increment the
64-bit counter (wrapping). -/
inductive cpu_stress2_step : Nat → Nat → Prop
  | step (num : Nat) (b : Bool) (h : is_prime num = b) :
      cpu_stress2_step num ((num + 1) % W)

/-- Initial counter of `cpu_stress2` (`unsigned long long num = 2`). -/
def cpu_stress2_init : Nat := 2

/-- Process memory counters returned by the OS query
(`PROCESS_MEMORY_COUNTERS`), in bytes. -/
structure ProcessMemoryCounters where
  pagefileUsage : Nat
  workingSetSize : Nat

/-- Embedding of `print_memory_usage` (source lines 43-52).  The argument
`ok` is the success flag of `GetProcessMemoryInfo`; on success the function
reports the two counters in whole megabytes (truncating integer division by
`1024 * 1024`); on failure (`none`) it reports no sample. -/
def print_memory_usage (ok : Bool) (pmc : ProcessMemoryCounters) :
    Option (Nat × Nat) :=
  if ok then
    some (pmc.pagefileUsage / (1024 * 1024), pmc.workingSetSize / (1024 * 1024))
  else none

/-- One `GetSystemTimes` snapshot: the three 64-bit cumulative counters (the
`ULARGE_INTEGER.QuadPart` views of the `FILETIME`s). -/
structure CpuTimes where
  idle : Nat
  kernel : Nat
  user : Nat

/-- Wrapping 64-bit addition. -/
def add64 (a b : Nat) : Nat := (a + b) % W

/-- Wrapping 64-bit subtraction (operands reduced modulo `W`). -/
def sub64 (a b : Nat) : Nat := (a % W + W - b % W) % W

/-- Embedding of the computation of `print_cpu_usage` (source lines 54-89)
on the two snapshots it captures one second apart.  `systemTimeDelta` and
`idleTimeDelta` are wrapping 64-bit differences; the utilization
`100.0 - idleDelta / systemDelta * 100.0` is modelled by exact rational
division (the claims under test only concern exactly representable
quotients).  `some q` models the numeric report the code always prints;
`none` would model a distinguished "no measurable interval" report, which
the code never produces: there is no zero test on `systemTimeDelta`. -/
def print_cpu_usage (t1 t2 : CpuTimes) : Option ℚ :=
  let systemTime1 := add64 t1.kernel t1.user
  let systemTime2 := add64 t2.kernel t2.user
  let systemTimeDelta := sub64 systemTime2 systemTime1
  let idleTimeDelta := sub64 t2.idle t1.idle
  some (100 - (idleTimeDelta : ℚ) / (systemTimeDelta : ℚ) * 100)

/-- Events of the driver sequence in `main` (source lines 93-137), in
program order.  Only the steps the claims are about are recorded. -/
inductive Event where
  | reserve : Nat → Event
  | fill : Nat → Nat → Event
  | spawnFP : Event
  | spawnPS : Event
  | hold : Nat → Event
  | sampleMemory : Event
  | sampleCpu : Event
  | pause : Event
  | release : Event
  deriving DecidableEq

/-- Bytes per gigabyte (`GB` in the source, line 96). -/
def GB : Nat := 1024 * 1024 * 1024

/-- Size of the reserved block (`SIZE = 22ULL * GB`, line 97). -/
def SIZE : Nat := 22 * GB

/-- Contents of the reserved block right after `memset(big_array, 1, SIZE)`
(line 106): every one of the `size` bytes holds `value`. -/
def memsetBlock (size : Nat) (value : Nat) : List Nat :=
  List.replicate size value

/-- Kinds of worker handles held in the `threads` vector. -/
inductive Worker where
  | fp : Worker
  | ps : Worker
  deriving DecidableEq

/-- The `threads` vector after the two spawn loops (source lines 108-116):
`numThreads` handles running `cpu_stress`, then `numThreads` handles running
`cpu_stress2`. -/
def threadsVector (numThreads : Nat) : List Worker :=
  List.replicate numThreads Worker.fp ++ List.replicate numThreads Worker.ps

/-- Driver sequence of `main` (source lines 93-137) as the list of events it
performs, paired with the process exit code.  `allocOk` is whether
`new(nothrow)` succeeded; `numThreads` is the value returned by
`thread::hardware_concurrency()`. -/
def mainTrace (allocOk : Bool) (numThreads : Nat) : List Event × Nat :=
  if allocOk then
    (Event.reserve SIZE :: Event.fill SIZE 1 ::
      (List.replicate numThreads Event.spawnFP ++
       List.replicate numThreads Event.spawnPS ++
       [Event.hold 10000, Event.sampleMemory, Event.sampleCpu,
        Event.pause, Event.release]), 0)
  else ([Event.reserve SIZE], 1)

/-- Wrapping addition below the modulus is plain addition. -/
lemma add64_eq (a b : Nat) (h : a + b < W) : add64 a b = a + b := by
  simp only [add64, W] at *
  omega

/-- Wrapping subtraction of monotone in-range counters is plain subtraction. -/
lemma sub64_eq (a b : Nat) (hb : b ≤ a) (ha : a < W) : sub64 a b = a - b := by
  simp only [sub64, W] at *
  omega

/-- C2 (code bug): on two identical snapshots the system-time delta is zero,
yet `print_cpu_usage` still takes the division path and reports a numeric
value; it never produces a distinguished non-numeric report, contrary to the
required `NoMeasurableInterval` behavior. -/
theorem print_cpu_usage_zero_delta_still_numeric :
    (print_cpu_usage ⟨0, 100, 0⟩ ⟨0, 100, 0⟩).isSome = true := rfl

/-- C3: for snapshot pairs whose counters are in range and monotone, with a
nonzero system-time delta, the computed utilization equals
`100 * (1 - idleDelta / systemDelta)`. -/
theorem print_cpu_usage_formula (t1 t2 : CpuTimes)
    (hkuW : t2.kernel + t2.user < W) (hiW : t2.idle < W)
    (hmono : t1.kernel + t1.user ≤ t2.kernel + t2.user)
    (himono : t1.idle ≤ t2.idle)
    (hnz : t1.kernel + t1.user ≠ t2.kernel + t2.user) :
    print_cpu_usage t1 t2 =
      some (100 * (1 - (((t2.idle - t1.idle : Nat) : ℚ) /
        (((t2.kernel + t2.user) - (t1.kernel + t1.user) : Nat) : ℚ)))) := by
  have h1 : add64 t1.kernel t1.user = t1.kernel + t1.user :=
    add64_eq _ _ (by omega)
  have h2 : add64 t2.kernel t2.user = t2.kernel + t2.user :=
    add64_eq _ _ hkuW
  simp only [print_cpu_usage, h1, h2,
    sub64_eq _ _ hmono hkuW, sub64_eq _ _ himono hiW]
  congr 1
  ring

/-- Witness for C3: with idle delta 0 and system delta 100 the report is
100; with idle delta equal to system delta the report is 0. -/
theorem print_cpu_usage_formula_witness :
    (0 : Nat) + 0 ≤ 100 + 0 ∧
    print_cpu_usage ⟨0, 0, 0⟩ ⟨0, 100, 0⟩ = some 100 ∧
    print_cpu_usage ⟨0, 0, 0⟩ ⟨70, 50, 20⟩ = some 0 := by
  refine ⟨by norm_num, ?_, ?_⟩
  · have h := print_cpu_usage_formula ⟨0, 0, 0⟩ ⟨0, 100, 0⟩
      (by norm_num [W]) (by norm_num [W]) (by norm_num) (by norm_num)
      (by norm_num)
    rw [h]
    norm_num
  · have h := print_cpu_usage_formula ⟨0, 0, 0⟩ ⟨70, 50, 20⟩
      (by norm_num [W]) (by norm_num [W]) (by norm_num) (by norm_num)
      (by norm_num)
    rw [h]
    norm_num

/-- C4: if the reservation fails, `main` exits with code 1 and no worker is
started; if it succeeds and the sequence completes, it exits with code 0. -/
theorem mainTrace_exit_codes (numThreads : Nat) :
    (mainTrace false numThreads).2 = 1 ∧
    (mainTrace false numThreads).1.count Event.spawnFP = 0 ∧
    (mainTrace false numThreads).1.count Event.spawnPS = 0 ∧
    (mainTrace true numThreads).2 = 0 := by
  refine ⟨rfl, ?_, ?_, rfl⟩ <;>
    simp [mainTrace, List.count_cons, List.count_nil]

/-- C5: after a successful reservation of `size` bytes, every byte of the
block holds the non-zero fill value 1, the fill is the event at index 1 of
the driver trace, and every spawn and every measurement event occurs
strictly later. -/
theorem memset_covers_before_workers (size off numThreads : Nat)
    (hoff : off < size) :
    (memsetBlock size 1).get? off = some 1 ∧ (1 : Nat) ≠ 0 ∧
    (mainTrace true numThreads).1.get? 1 = some (Event.fill SIZE 1) ∧
    (∀ k e, (mainTrace true numThreads).1.get? k = some e →
      (e = Event.spawnFP ∨ e = Event.spawnPS ∨
       e = Event.sampleMemory ∨ e = Event.sampleCpu) → 1 < k) := by
  refine ⟨?_, by norm_num, rfl, ?_⟩
  · simp [memsetBlock, List.get?_eq_getElem?, hoff]
  · intro k e hk he
    match k with
    | 0 =>
      have h0 : (mainTrace true numThreads).1.get? 0 =
          some (Event.reserve SIZE) := rfl
      rw [h0] at hk
      cases hk
      rcases he with h | h | h | h <;> cases h
    | 1 =>
      have h1 : (mainTrace true numThreads).1.get? 1 =
          some (Event.fill SIZE 1) := rfl
      rw [h1] at hk
      cases hk
      rcases he with h | h | h | h <;> cases h
    | (k + 2) => omega

/-- Witness for C5 at a concrete block size and offset. -/
theorem memset_covers_before_workers_witness :
    (2 : Nat) < 4 ∧
    ((memsetBlock 4 1).get? 2 = some 1 ∧ (1 : Nat) ≠ 0 ∧
     (mainTrace true 1).1.get? 1 = some (Event.fill SIZE 1) ∧
     (∀ k e, (mainTrace true 1).1.get? k = some e →
       (e = Event.spawnFP ∨ e = Event.spawnPS ∨
        e = Event.sampleMemory ∨ e = Event.sampleCpu) → 1 < k)) :=
  ⟨by norm_num, memset_covers_before_workers 4 2 1 (by norm_num)⟩

/-- C6: starting the load with `numThreads = n` produces `n` floating-point
workers and `n` prime-scan workers, `2 * n` handles in total, and the driver
trace records the same spawn counts. -/
theorem threadsVector_counts (n : Nat) :
    (threadsVector n).length = 2 * n ∧
    (threadsVector n).count Worker.fp = n ∧
    (threadsVector n).count Worker.ps = n ∧
    (mainTrace true n).1.count Event.spawnFP = n ∧
    (mainTrace true n).1.count Event.spawnPS = n := by
  refine ⟨?_, ?_, ?_, ?_, ?_⟩ <;>
    simp [threadsVector, mainTrace, List.count_append, List.count_replicate,
      List.count_cons, List.count_nil] <;> omega

/-- C7: the memory sample is reported in whole megabytes by truncating
integer division by `1024 * 1024`; in particular `2 * 1024 * 1024 * 3`
committed bytes report as 6. -/
theorem print_memory_usage_mb (pf ws : Nat) :
    print_memory_usage true ⟨pf, ws⟩ =
      some (pf / (1024 * 1024), ws / (1024 * 1024)) ∧
    1024 * 1024 * (pf / (1024 * 1024)) ≤ pf ∧
    pf < 1024 * 1024 * (pf / (1024 * 1024)) + 1024 * 1024 ∧
    print_memory_usage true ⟨2 * 1024 * 1024 * 3, 0⟩ = some (6, 0) := by
  refine ⟨rfl, by omega, by omega, by norm_num [print_memory_usage]⟩

/-- C8: in a successful run the driver trace is the spawns, then the fixed
10-second hold (`Sleep(10000)` milliseconds, `10 * 1000`), then the
measurements: no sample occurs before the hold, no spawn occurs after it,
both samples occur after it, and all `2 * n` spawns precede it. -/
theorem samples_after_hold_after_spawns (n : Nat) :
    ∃ pre post,
      (mainTrace true n).1 = pre ++ Event.hold (10 * 1000) :: post ∧
      (∀ e ∈ pre, e ≠ Event.sampleMemory ∧ e ≠ Event.sampleCpu) ∧
      (∀ e ∈ post, e ≠ Event.spawnFP ∧ e ≠ Event.spawnPS) ∧
      Event.sampleMemory ∈ post ∧ Event.sampleCpu ∈ post ∧
      pre.count Event.spawnFP = n ∧ pre.count Event.spawnPS = n := by
  refine ⟨Event.reserve SIZE :: Event.fill SIZE 1 ::
      (List.replicate n Event.spawnFP ++ List.replicate n Event.spawnPS),
    [Event.sampleMemory, Event.sampleCpu, Event.pause, Event.release],
    ?_, ?_, ?_, ?_, ?_, ?_, ?_⟩
  · simp [mainTrace]
  · intro e he
    simp only [List.mem_cons, List.mem_append, List.mem_replicate] at he
    rcases he with rfl | rfl | ⟨_, rfl⟩ | ⟨_, rfl⟩ <;> exact ⟨by simp, by simp⟩
  · intro e he
    simp only [List.mem_cons, List.not_mem_nil, or_false] at he
    rcases he with rfl | rfl | rfl | rfl <;> exact ⟨by simp, by simp⟩
  · simp
  · simp
  · simp [List.count_cons, List.count_append, List.count_replicate]
  · simp [List.count_cons, List.count_append, List.count_replicate]

/-- C9: neither busy worker has a final state: from any state each one has a
next step.  The floating-point pass restarts after its 100000000 iterations
and the prime-scan counter always probes and increments. -/
theorem workers_never_terminate :
    (∀ s : FPState, ∃ t, cpu_stress_step s t) ∧
    (∀ num : Nat, ∃ m, cpu_stress2_step num m) := by
  constructor
  · rintro ⟨i, r⟩
    by_cases h : i < 100000000
    · exact ⟨_, cpu_stress_step.inner i r h⟩
    · exact ⟨_, cpu_stress_step.restart i r h⟩
  · intro num
    exact ⟨_, cpu_stress2_step.step num (is_prime num) rfl⟩

/-- Unfolding equation of one loop iteration. -/
lemma trialLoop_succ (num fuel i : Nat) :
    trialLoop num (fuel + 1) i =
      if i * i % W ≤ num then
        if num % i = 0 ∨ num % ((i + 2) % W) = 0 then some false
        else trialLoop num fuel ((i + 6) % W)
      else some true := rfl

/-- If the wrapped guard fails at the progression point `i + 6 * m` and no
divisor is hit at any earlier progression point, the loop returns `true`. -/
lemma trialLoop_exits_true (num : Nat) :
    ∀ m i fuel : Nat, i + 6 * m < W →
      num < (i + 6 * m) * (i + 6 * m) % W →
      (∀ t, t < m →
        ¬ (num % (i + 6 * t) = 0 ∨ num % ((i + 6 * t + 2) % W) = 0)) →
      m < fuel → trialLoop num fuel i = some true := by
  intro m
  induction m with
  | zero =>
    intro i fuel hW hg hd hf
    obtain ⟨f, rfl⟩ : ∃ f, fuel = f + 1 := ⟨fuel - 1, by omega⟩
    simp only [Nat.mul_zero, Nat.add_zero] at hg
    rw [trialLoop_succ, if_neg (by omega)]
  | succ m ih =>
    intro i fuel hW hg hd hf
    obtain ⟨f, rfl⟩ : ∃ f, fuel = f + 1 := ⟨fuel - 1, by omega⟩
    rw [trialLoop_succ]
    by_cases hgi : i * i % W ≤ num
    · have h0 := hd 0 (by omega)
      simp only [Nat.mul_zero, Nat.add_zero] at h0
      rw [if_pos hgi, if_neg h0,
        Nat.mod_eq_of_lt (show i + 6 < W by omega)]
      have hstep : i + 6 * (m + 1) = (i + 6) + 6 * m := by ring
      rw [hstep] at hW hg
      refine ih (i + 6) f hW hg ?_ (by omega)
      intro t ht
      have h := hd (t + 1) (by omega)
      have e1 : i + 6 * (t + 1) = i + 6 + 6 * t := by ring
      rwa [e1] at h
    · rw [if_neg hgi]

/-- If the wrapped guard holds at every progression point up to `i + 6 * m`
and a divisor is hit there, the loop returns `false`. -/
lemma trialLoop_exits_false (num : Nat) :
    ∀ m i fuel : Nat, i + 6 * m < W →
      (∀ t, t ≤ m → (i + 6 * t) * (i + 6 * t) % W ≤ num) →
      (num % (i + 6 * m) = 0 ∨ num % ((i + 6 * m + 2) % W) = 0) →
      m < fuel → trialLoop num fuel i = some false := by
  intro m
  induction m with
  | zero =>
    intro i fuel hW hg hd hf
    obtain ⟨f, rfl⟩ : ∃ f, fuel = f + 1 := ⟨fuel - 1, by omega⟩
    have h0 := hg 0 (by omega)
    simp only [Nat.mul_zero, Nat.add_zero] at h0 hd
    rw [trialLoop_succ, if_pos h0, if_pos hd]
  | succ m ih =>
    intro i fuel hW hg hd hf
    obtain ⟨f, rfl⟩ : ∃ f, fuel = f + 1 := ⟨fuel - 1, by omega⟩
    have h0 := hg 0 (by omega)
    simp only [Nat.mul_zero, Nat.add_zero] at h0
    rw [trialLoop_succ, if_pos h0]
    by_cases hdi : num % i = 0 ∨ num % ((i + 2) % W) = 0
    · rw [if_pos hdi]
    · rw [if_neg hdi, Nat.mod_eq_of_lt (show i + 6 < W by omega)]
      have hstep : i + 6 * (m + 1) = (i + 6) + 6 * m := by ring
      rw [hstep] at hW hd
      refine ih (i + 6) f hW ?_ hd (by omega)
      intro t ht
      have h := hg (t + 1) (by omega)
      have e1 : i + 6 * (t + 1) = i + 6 + 6 * t := by ring
      rwa [e1] at h

/-- If the wrapped guard fails at some progression point ahead, the loop
reaches one of its exits: the fuel is not exhausted. -/
lemma trialLoop_isSome (num : Nat) :
    ∀ m i fuel : Nat, i + 6 * m < W →
      num < (i + 6 * m) * (i + 6 * m) % W →
      m < fuel → (trialLoop num fuel i).isSome = true := by
  intro m
  induction m with
  | zero =>
    intro i fuel hW hg hf
    obtain ⟨f, rfl⟩ : ∃ f, fuel = f + 1 := ⟨fuel - 1, by omega⟩
    simp only [Nat.mul_zero, Nat.add_zero] at hg
    rw [trialLoop_succ, if_neg (by omega)]
    rfl
  | succ m ih =>
    intro i fuel hW hg hf
    obtain ⟨f, rfl⟩ : ∃ f, fuel = f + 1 := ⟨fuel - 1, by omega⟩
    rw [trialLoop_succ]
    by_cases hgi : i * i % W ≤ num
    · rw [if_pos hgi]
      by_cases hdi : num % i = 0 ∨ num % ((i + 2) % W) = 0
      · rw [if_pos hdi]
        rfl
      · rw [if_neg hdi, Nat.mod_eq_of_lt (show i + 6 < W by omega)]
        have hstep : i + 6 * (m + 1) = (i + 6) + 6 * m := by ring
        rw [hstep] at hW hg
        exact ih (i + 6) f hW hg (by omega)
    · rw [if_neg hgi]
      rfl

/-- Squares of odd numbers reduce modulo `W` to a value congruent to 1
modulo 8, hence to at most `W - 7`. -/
lemma odd_sq_mod_W_le (j : Nat) (hj : j % 2 = 1) : j * j % W ≤ W - 7 := by
  have h8 : j * j % 8 = 1 := by
    have hc : j % 8 = 1 ∨ j % 8 = 3 ∨ j % 8 = 5 ∨ j % 8 = 7 := by omega
    rw [Nat.mul_mod]
    rcases hc with h | h | h | h <;> rw [h]
  have h2 : j * j % W % 8 = 1 := by
    rw [Nat.mod_mod_of_dvd _ (by norm_num [W] : (8 : Nat) ∣ W)]
    exact h8
  have h3 : j * j % W < W := Nat.mod_lt _ (by norm_num [W])
  simp only [W] at h2 h3 ⊢
  omega

/-- Uniform guard witness: a value congruent to 5 modulo 6, in the
progression the trial-division loop scans, whose square reduces modulo `W`
to `W - 7` -- the largest value any odd square can reduce to.  A pass of the
loop on any `num ≤ W - 8` that reaches this point therefore exits. -/
def x0 : Nat := 1852311383259529397

/-- Congruence class of the guard witness. -/
lemma x0_mod6 : x0 % 6 = 5 := by norm_num [x0]

/-- The square of the guard witness reduces to `W - 7` modulo `W`. -/
lemma x0_sq : x0 * x0 % W = W - 7 := by norm_num [x0, W]

/-- The guard witness is below `2 ^ 62`. -/
lemma x0_lt : x0 < 4611686018427387904 := by norm_num [x0]

/-- On a composite input that survives the 2- and 3-filters, the loop finds
the minimal prime factor (or exits false even earlier): `is_prime` answers
`false`. -/
lemma is_prime_eq_false_of_not_prime (n : Nat) (h5 : 5 ≤ n) (hW : n < W)
    (h2 : n % 2 ≠ 0) (h3 : n % 3 ≠ 0) (hnp : ¬ n.Prime) :
    is_prime n = false := by
  have hqp : n.minFac.Prime := Nat.minFac_prime (by omega)
  have hqd : n.minFac ∣ n := Nat.minFac_dvd n
  have hnq : n % n.minFac = 0 := Nat.mod_eq_zero_of_dvd hqd
  have hsq : n.minFac * n.minFac ≤ n := by
    have h := Nat.minFac_sq_le_self (by omega : 0 < n) hnp
    simpa [Nat.pow_two] using h
  have hq2 : n.minFac ≠ 2 := by
    intro h
    exact h2 (by rw [← h]; exact hnq)
  have hq3 : n.minFac ≠ 3 := by
    intro h
    exact h3 (by rw [← h]; exact hnq)
  have hq4 : n.minFac ≠ 4 := by
    intro h
    rw [h] at hqp
    norm_num at hqp
  have hq5 : 5 ≤ n.minFac := by
    have := hqp.two_le
    omega
  have hqo : n.minFac % 2 = 1 := by
    rcases Nat.even_or_odd n.minFac with he | ho
    · exact absurd ((Nat.Prime.even_iff hqp).mp he) hq2
    · exact Nat.odd_iff.mp ho
  have hq3d : n.minFac % 3 ≠ 0 := by
    intro h
    have hdvd : (3 : Nat) ∣ n.minFac := Nat.dvd_of_mod_eq_zero h
    have := (Nat.prime_dvd_prime_iff_eq (by norm_num) hqp).mp hdvd
    exact hq3 this.symm
  have hq6 : n.minFac % 6 = 1 ∨ n.minFac % 6 = 5 := by omega
  have hqn : n.minFac ≤ n := Nat.minFac_le (by omega)
  rw [is_prime, if_neg (by omega), if_neg (by rintro (rfl | rfl) <;> omega),
    if_neg (by rintro (h | h) <;> [exact h2 h; exact h3 h])]
  rcases hq6 with hq6 | hq6
  · -- minimal factor is 1 mod 6: it is tested as `i + 2` at site minFac - 2
    have hm : 5 + 6 * ((n.minFac - 7) / 6) = n.minFac - 2 := by omega
    have hrun := trialLoop_exits_false n ((n.minFac - 7) / 6) 5 W
      (by rw [hm]; omega)
      (by
        intro t ht
        have hj : 5 + 6 * t ≤ n.minFac - 2 := by omega
        have hjj : (5 + 6 * t) * (5 + 6 * t) ≤ n :=
          le_trans (Nat.mul_le_mul (by omega) (by omega)) hsq
        rw [Nat.mod_eq_of_lt (show (5 + 6 * t) * (5 + 6 * t) < W by omega)]
        exact hjj)
      (by
        right
        have he : 5 + 6 * ((n.minFac - 7) / 6) + 2 = n.minFac := by omega
        rw [he, Nat.mod_eq_of_lt (show n.minFac < W by omega)]
        exact hnq)
      (by omega)
    rw [hrun]
    rfl
  · -- minimal factor is 5 mod 6: it is tested as `i` at site minFac
    have hm : 5 + 6 * ((n.minFac - 5) / 6) = n.minFac := by omega
    have hrun := trialLoop_exits_false n ((n.minFac - 5) / 6) 5 W
      (by rw [hm]; omega)
      (by
        intro t ht
        have hj : 5 + 6 * t ≤ n.minFac := by omega
        have hjj : (5 + 6 * t) * (5 + 6 * t) ≤ n :=
          le_trans (Nat.mul_le_mul hj hj) hsq
        rw [Nat.mod_eq_of_lt (show (5 + 6 * t) * (5 + 6 * t) < W by omega)]
        exact hjj)
      (by
        left
        rw [hm]
        exact hnq)
      (by omega)
    rw [hrun]
    rfl

/-- On a prime below the guard witness, the wrapped guard first fails just
above the integer square root, before any wrap occurs, so `is_prime` answers
`true`. -/
lemma is_prime_eq_true_of_prime_small (n : Nat) (hp : n.Prime) (h16 : 16 ≤ n)
    (h2 : n % 2 ≠ 0) (h3 : n % 3 ≠ 0) (hsmall : n < x0) :
    is_prime n = true := by
  have hrr : n.sqrt * n.sqrt ≤ n := Nat.sqrt_le n
  have hrlt : n < (n.sqrt + 1) * (n.sqrt + 1) := Nat.lt_succ_sqrt n
  have hr4 : 4 ≤ n.sqrt := Nat.le_sqrt.mpr (by omega)
  have hr4r : 4 * n.sqrt ≤ n.sqrt * n.sqrt := Nat.mul_le_mul_right _ (by omega)
  have hxl := x0_lt
  have hrbound : n.sqrt < 2147483648 := by
    by_contra hc
    push_neg at hc
    have hb : 2147483648 * 2147483648 ≤ n.sqrt * n.sqrt :=
      Nat.mul_le_mul hc hc
    omega
  -- the exit point: the first progression element strictly above the root
  have he1 : n.sqrt + 2 ≤ 5 + 6 * ((n.sqrt + 2) / 6) := by omega
  have he2 : 5 + 6 * ((n.sqrt + 2) / 6) ≤ n.sqrt + 7 := by omega
  have hesq : (5 + 6 * ((n.sqrt + 2) / 6)) * (5 + 6 * ((n.sqrt + 2) / 6)) < W := by
    have hb : (5 + 6 * ((n.sqrt + 2) / 6)) * (5 + 6 * ((n.sqrt + 2) / 6)) ≤
        2147483655 * 2147483655 := Nat.mul_le_mul (by omega) (by omega)
    simp only [W]
    omega
  have hguard : n <
      (5 + 6 * ((n.sqrt + 2) / 6)) * (5 + 6 * ((n.sqrt + 2) / 6)) % W := by
    rw [Nat.mod_eq_of_lt hesq]
    have hmono : (n.sqrt + 1) * (n.sqrt + 1) ≤
        (5 + 6 * ((n.sqrt + 2) / 6)) * (5 + 6 * ((n.sqrt + 2) / 6)) :=
      Nat.mul_le_mul (by omega) (by omega)
    omega
  have hd : ∀ t, t < (n.sqrt + 2) / 6 →
      ¬ (n % (5 + 6 * t) = 0 ∨ n % ((5 + 6 * t + 2) % W) = 0) := by
    intro t ht hcon
    have hjlt : 5 + 6 * t + 6 ≤ 5 + 6 * ((n.sqrt + 2) / 6) := by omega
    have hjW : 5 + 6 * t + 2 < W := by simp only [W]; omega
    rcases hcon with hc | hc
    · rcases hp.eq_one_or_self_of_dvd _ (Nat.dvd_of_mod_eq_zero hc) with h | h
      · omega
      · omega
    · rw [Nat.mod_eq_of_lt hjW] at hc
      rcases hp.eq_one_or_self_of_dvd _ (Nat.dvd_of_mod_eq_zero hc) with h | h
      · omega
      · omega
  rw [is_prime, if_neg (by omega), if_neg (by rintro (rfl | rfl) <;> omega),
    if_neg (by rintro (h | h) <;> [exact h2 h; exact h3 h])]
  have hrun := trialLoop_exits_true n ((n.sqrt + 2) / 6) 5 W
    (by simp only [W] at *; omega) hguard hd (by simp only [W]; omega)
  rw [hrun]
  rfl

/-- On a prime at or above the guard witness, no progression point below the
witness can divide the prime, and the wrapped guard fails at the witness
itself, so `is_prime` answers `true`. -/
lemma is_prime_eq_true_of_prime_big (n : Nat) (hp : n.Prime) (hW : n < W)
    (h2 : n % 2 ≠ 0) (h3 : n % 3 ≠ 0) (hbig : x0 ≤ n) :
    is_prime n = true := by
  have hx6 := x0_mod6
  have hxl := x0_lt
  -- the seven values above `W - 8` are all composite or sieved out
  have htop : n ≤ W - 8 := by
    by_contra hc
    push_neg at hc
    have h7 : n = W - 7 ∨ n = W - 6 ∨ n = W - 5 ∨ n = W - 4 ∨
        n = W - 3 ∨ n = W - 2 ∨ n = W - 1 := by
      simp only [W] at hc hW ⊢
      omega
    have h11 : ¬ ((11 : Nat) ∣ n ∧ n ≠ 11) := by
      rintro ⟨hdvd, hne⟩
      rcases hp.eq_one_or_self_of_dvd 11 hdvd with h | h <;> omega
    have h13 : ¬ ((13 : Nat) ∣ n ∧ n ≠ 13) := by
      rintro ⟨hdvd, hne⟩
      rcases hp.eq_one_or_self_of_dvd 13 hdvd with h | h <;> omega
    rcases h7 with rfl | rfl | rfl | rfl | rfl | rfl | rfl
    · exact h3 (by norm_num [W])
    · exact h2 (by norm_num [W])
    · exact h11 ⟨Nat.dvd_of_mod_eq_zero (by norm_num [W]), by norm_num [W]⟩
    · exact h2 (by norm_num [W])
    · exact h13 ⟨Nat.dvd_of_mod_eq_zero (by norm_num [W]), by norm_num [W]⟩
    · exact h2 (by norm_num [W])
    · exact h3 (by norm_num [W])
  have hm : 5 + 6 * ((x0 - 5) / 6) = x0 := by omega
  have hguard : n < (5 + 6 * ((x0 - 5) / 6)) * (5 + 6 * ((x0 - 5) / 6)) % W := by
    rw [hm, x0_sq]
    simp only [W] at htop ⊢
    omega
  have hd : ∀ t, t < (x0 - 5) / 6 →
      ¬ (n % (5 + 6 * t) = 0 ∨ n % ((5 + 6 * t + 2) % W) = 0) := by
    intro t ht hcon
    have hjlt : 5 + 6 * t + 6 ≤ x0 := by omega
    have hjW : 5 + 6 * t + 2 < W := by simp only [W]; omega
    rcases hcon with hc | hc
    · rcases hp.eq_one_or_self_of_dvd _ (Nat.dvd_of_mod_eq_zero hc) with h | h
      · omega
      · omega
    · rw [Nat.mod_eq_of_lt hjW] at hc
      rcases hp.eq_one_or_self_of_dvd _ (Nat.dvd_of_mod_eq_zero hc) with h | h
      · omega
      · omega
  rw [is_prime, if_neg (by omega), if_neg (by rintro (rfl | rfl) <;> omega),
    if_neg (by rintro (h | h) <;> [exact h2 h; exact h3 h])]
  have hrun := trialLoop_exits_true n ((x0 - 5) / 6) 5 W
    (by rw [hm]; simp only [W]; omega) hguard hd (by simp only [W]; omega)
  rw [hrun]
  rfl

/-- C1: for every 64-bit input, `is_prime` decides primality: it returns
false for `n ≤ 1`, true on 2 and 3, false on multiples of 2 or 3, and on
all remaining inputs the trial-division loop -- wrapping guard included --
returns true exactly when `n` is prime. -/
theorem is_prime_iff_prime (n : Nat) (hW : n < W) :
    is_prime n = true ↔ n.Prime := by
  by_cases h1 : n ≤ 1
  · rw [is_prime, if_pos h1]
    simp only [Bool.false_eq_true, false_iff]
    intro hp
    have := hp.two_le
    omega
  by_cases h23 : n = 2 ∨ n = 3
  · rw [is_prime, if_neg h1, if_pos h23]
    simp only [true_iff]
    rcases h23 with rfl | rfl
    · exact Nat.prime_two
    · exact Nat.prime_three
  by_cases hdiv : n % 2 = 0 ∨ n % 3 = 0
  · rw [is_prime, if_neg h1, if_neg h23, if_pos hdiv]
    simp only [Bool.false_eq_true, false_iff]
    intro hp
    rcases hdiv with h | h
    · rcases hp.eq_one_or_self_of_dvd 2 (Nat.dvd_of_mod_eq_zero h) with hh | hh
      · omega
      · exact h23 (Or.inl hh.symm)
    · rcases hp.eq_one_or_self_of_dvd 3 (Nat.dvd_of_mod_eq_zero h) with hh | hh
      · omega
      · exact h23 (Or.inr hh.symm)
  push_neg at h23 hdiv
  have h5 : 5 ≤ n := by omega
  constructor
  · intro ht
    by_contra hnp
    rw [is_prime_eq_false_of_not_prime n h5 hW hdiv.1 hdiv.2 hnp] at ht
    exact Bool.false_ne_true ht
  · intro hp
    by_cases hx : n < x0
    · by_cases h16 : 16 ≤ n
      · exact is_prime_eq_true_of_prime_small n hp h16 hdiv.1 hdiv.2 hx
      · have hc : n = 5 ∨ n = 7 ∨ n = 11 ∨ n = 13 := by omega
        rcases hc with rfl | rfl | rfl | rfl <;> decide
    · exact is_prime_eq_true_of_prime_big n hp hW hdiv.1 hdiv.2 (by omega)

/-- Witness for C1 at `n = 97`, a prime from the table of section 8 of the
spec, and its direct consequence at that input. -/
theorem is_prime_iff_prime_witness :
    97 < W ∧ (is_prime 97 = true ↔ Nat.Prime 97) :=
  ⟨by norm_num [W], is_prime_iff_prime 97 (by norm_num [W])⟩

/-- C10: the trial-division loop terminates on every 64-bit input: with fuel
`W` it always reaches one of its two exits, even though the guard
`i * i <= num` is computed in wrapping 64-bit arithmetic.  Below `W - 7` the
progression point `x0` gives a guard exit; on the seven larger inputs the
guard never fails but an explicit divisor is always reached. -/
theorem trialLoop_terminates (n : Nat) (hW : n < W) :
    (trialLoop n W 5).isSome = true := by
  have hx6 := x0_mod6
  have hxl := x0_lt
  by_cases htop : n ≤ W - 8
  · have hm : 5 + 6 * ((x0 - 5) / 6) = x0 := by omega
    refine trialLoop_isSome n ((x0 - 5) / 6) 5 W ?_ ?_ ?_
    · rw [hm]
      simp only [W]
      omega
    · rw [hm, x0_sq]
      simp only [W] at htop ⊢
      omega
    · simp only [W]
      omega
  · have h7 : n = W - 7 ∨ n = W - 6 ∨ n = W - 5 ∨ n = W - 4 ∨
        n = W - 3 ∨ n = W - 2 ∨ n = W - 1 := by
      simp only [W] at htop hW ⊢
      omega
    have hguards : ∀ t : Nat, (5 + 6 * t) * (5 + 6 * t) % W ≤ n := by
      intro t
      have h := odd_sq_mod_W_le (5 + 6 * t) (by omega)
      simp only [W] at h htop ⊢
      omega
    rcases h7 with rfl | rfl | rfl | rfl | rfl | rfl | rfl
    · -- W - 7 = 818923289 * 22525670539, tested as `i` at the factor
      rw [trialLoop_exits_false (W - 7) 136487214 5 W (by norm_num [W])
        (fun t _ => hguards t) (Or.inl (by norm_num [W])) (by norm_num [W])]
      rfl
    · -- W - 6 is divisible by 5, tested as `i` at the first iteration
      rw [trialLoop_exits_false (W - 6) 0 5 W (by norm_num [W])
        (fun t _ => hguards t) (Or.inl (by norm_num [W])) (by norm_num [W])]
      rfl
    · -- W - 5 is divisible by 11, tested as `i` at the second iteration
      rw [trialLoop_exits_false (W - 5) 1 5 W (by norm_num [W])
        (fun t _ => hguards t) (Or.inl (by norm_num [W])) (by norm_num [W])]
      rfl
    · -- W - 4 = 715827883 * 25769803777 * ..., tested as `i + 2`
      rw [trialLoop_exits_false (W - 4) 119304646 5 W (by norm_num [W])
        (fun t _ => hguards t) (Or.inr (by norm_num [W])) (by norm_num [W])]
      rfl
    · -- W - 3 is divisible by 13, tested as `i + 2` at the second iteration
      rw [trialLoop_exits_false (W - 3) 1 5 W (by norm_num [W])
        (fun t _ => hguards t) (Or.inr (by norm_num [W])) (by norm_num [W])]
      rfl
    · -- W - 2 is divisible by 7, tested as `i + 2` at the first iteration
      rw [trialLoop_exits_false (W - 2) 0 5 W (by norm_num [W])
        (fun t _ => hguards t) (Or.inr (by norm_num [W])) (by norm_num [W])]
      rfl
    · -- W - 1 is divisible by 5, tested as `i` at the first iteration
      rw [trialLoop_exits_false (W - 1) 0 5 W (by norm_num [W])
        (fun t _ => hguards t) (Or.inl (by norm_num [W])) (by norm_num [W])]
      rfl

/-- Witness for C10 at `n = 101`. -/
theorem trialLoop_terminates_witness :
    101 < W ∧ (trialLoop 101 W 5).isSome = true :=
  ⟨by norm_num [W], trialLoop_terminates 101 (by norm_num [W])⟩

end CpuRamStress
